import Mathlib

set_option maxRecDepth 8000

/-!
Verification of the Nvidia module-signing script
(`src/nvidia-signing-script.py`) against its natural-language
specification.  External process execution is modelled by an abstract
environment mapping an argument vector to a launch result; every pure
piece of the script (version extraction, version comparison, kernel
filtering, orchestration) is translated directly from the source.
-/

/-- Result of attempting to launch one external process: either the
program could not be found/started (Python raises `OSError`), or the
process ran to completion with an exit code and captured stdout. -/
inductive LaunchResult where
  | noProgram : LaunchResult
  | ran (exitCode : Int) (stdout : String) : LaunchResult
deriving DecidableEq

/-- Abstract host environment: assigns to every argument vector (the
command name followed by its arguments, as built by the script via
`commandArgs.insert (0, commandName)`) the result of launching it. -/
structure SysEnv where
  runProcess : List String → LaunchResult

/-- Failure modes of the script.  `handled message exitCode` models a
call to `handleError`, which prints `message` and terminates the process
with `exitCode`.  `osError` models an uncaught `OSError` propagated out
of `executeCommandWithOutput`; `calledProcessError` models the uncaught
`subprocess.CalledProcessError` that `subprocess.check_output` raises
when the launched process exits with a non-zero status.  `unboundLocal`
models the `UnboundLocalError` that `getInstalledKernels` would raise on
an unrecognized package-manager string. -/
inductive ScriptError where
  | osError : ScriptError
  | calledProcessError (exitCode : Int) : ScriptError
  | handled (message : String) (exitCode : Nat) : ScriptError
  | unboundLocal : ScriptError
deriving DecidableEq

/-- Decidable equality for `Except`, so that concrete runs of the
translated functions can be checked by `decide`. -/
instance {ε α : Type} [DecidableEq ε] [DecidableEq α] :
    DecidableEq (Except ε α) := fun a b =>
  match a, b with
  | .ok x, .ok y =>
    if h : x = y then .isTrue (by rw [h]) else .isFalse (by simp [h])
  | .error x, .error y =>
    if h : x = y then .isTrue (by rw [h]) else .isFalse (by simp [h])
  | .ok _, .error _ => .isFalse (by simp)
  | .error _, .ok _ => .isFalse (by simp)

/-- Translation of `executeCommandWithOutput`.  The source calls
`subprocess.check_output`, which (per the Python library) raises
`CalledProcessError` when the process exits with a non-zero status and
`OSError` when the program cannot be started; only `OSError` is caught
(and re-raised to the caller).  On a zero exit status the captured
stdout is decoded and returned (decoding is the identity here since the
model carries stdout as a string). -/
def executeCommandWithOutput (env : SysEnv) (commandName : String)
    (commandArgs : List String) : Except ScriptError String :=
  match env.runProcess (commandName :: commandArgs) with
  | .noProgram => .error .osError
  | .ran exitCode stdout =>
    if exitCode = 0 then .ok stdout else .error (.calledProcessError exitCode)

/-- Translation of `executeCommandWithExitStatus`: runs the command via
`subprocess.call` with both output streams suppressed and returns its
exit status; if the program cannot be started (`OSError`) it returns the
sentinel status 127 instead of failing. -/
def executeCommandWithExitStatus (env : SysEnv) (commandName : String)
    (commandArgs : List String) : Int :=
  match env.runProcess (commandName :: commandArgs) with
  | .noProgram => 127
  | .ran exitCode _ => exitCode

/-- Characters that may continue a version match: the alternatives
`\d`, `.`, `-`, `[a-z]`, `[A-Z]` of the regex
`\d+(\d+|\.|\-|[a-z]|[A-Z])+` in `extractKernelVersionString`. -/
def vchar (c : Char) : Bool :=
  c.isDigit || c.isAlpha || c == '.' || c == '-'

/-- Whether the regex `\d+(\d+|\.|\-|[a-z]|[A-Z])+` matches at the head
of the list: a leading digit followed by at least one further character
from the continuation alternatives. -/
def goodStart : List Char → Bool
  | c :: d :: _ => c.isDigit && vchar d
  | _ => false

/-- Leftmost-greedy search of `re.search` for the pattern
`\d+(\d+|\.|\-|[a-z]|[A-Z])+`: the first position with a digit followed
by a continuation character starts the match, which then extends over
the maximal run of continuation characters. -/
def findMatch : List Char → Option (List Char)
  | [] => none
  | c :: rest =>
    if goodStart (c :: rest) then some (c :: rest.takeWhile vchar)
    else findMatch rest

/-- Post-processing step of `extractKernelVersionString`: if the final
character of the matched substring is neither a digit nor a letter
(a trailing `.` or `-` separator artifact), drop it. -/
def stripTrailingSep (m : List Char) : List Char :=
  match m.getLast? with
  | none => m
  | some c => if c.isDigit || c.isAlpha then m else m.dropLast

/-- Translation of `extractKernelVersionString`: search the line for the
first match of `\d+(\d+|\.|\-|[a-z]|[A-Z])+`; if there is none, call
`handleError` with exit code 3; otherwise return the match with a
trailing separator character stripped. -/
def extractKernelVersionString (line : String) : Except ScriptError String :=
  match findMatch line.data with
  | none =>
    .error (.handled ("Unable to extract version string for kernel line: " ++ line) 3)
  | some m => .ok ⟨stripTrailingSep m⟩

/-- Whitespace characters stripped by Python's `str.rstrip ()`
(restricted to the ASCII whitespace set). -/
def isPySpace (c : Char) : Bool :=
  c == ' ' || c == '\t' || c == '\n' || c == '\r' || c == '\x0b' || c == '\x0c'

/-- Model of Python's `str.rstrip ()`: remove trailing whitespace. -/
def pyRstrip (s : String) : String :=
  ⟨(s.data.reverse.dropWhile isPySpace).reverse⟩

/-- Model of Python's `str.split ('\n')`: split on every newline,
keeping empty pieces; the empty string yields one empty line. -/
def splitLines : List Char → List (List Char)
  | [] => [[]]
  | c :: rest =>
    let r := splitLines rest
    if c = '\n' then [] :: r
    else
      match r with
      | [] => [[c]]
      | line :: more => (c :: line) :: more

/-- String-level wrapper for `splitLines`. -/
def pySplitNewline (s : String) : List String :=
  (splitLines s.data).map (fun l => ⟨l⟩)

/-- Declarative reading of the specification's pattern
`digit (digit|.|-|letter)+`: a digit followed by one or more
digits/dots/dashes/letters. -/
def matchesPattern (m : List Char) : Prop :=
  ∃ d t, m = d :: t ∧ d.isDigit = true ∧ t ≠ [] ∧ ∀ c ∈ t, vchar c = true

/-- The characters following a maximal match must not extend it: the
suffix is empty or begins with a non-continuation character. -/
def blocksMatch : List Char → Bool
  | [] => true
  | c :: _ => !(vchar c)

/-- Declarative statement that `m` is the first maximal substring of `l`
matching `digit (digit|.|-|letter)+`: `m` occurs in `l`, matches the
pattern, cannot be extended to the right, and no earlier position of `l`
starts any match. -/
def firstMaximalMatch (l m : List Char) : Prop :=
  ∃ pre post, l = pre ++ m ++ post ∧ matchesPattern m ∧
    blocksMatch post = true ∧ ∀ j, j < pre.length → goodStart (l.drop j) = false

/-- Lowercase ASCII letter test, the `[a-z]` component class of the
version tokenizer (input is lowercased first). -/
def isLowerAlpha (c : Char) : Bool := 'a' ≤ c && c ≤ 'z'

/-- Whether two adjacent characters belong to the same tokenizer
component: both digits, both lowercase letters, or both outside the
component alphabet (`.` and `-` always form single-character
components). -/
def sameComponent (a b : Char) : Bool :=
  (a.isDigit && b.isDigit) || (isLowerAlpha a && isLowerAlpha b) ||
    (!(a.isDigit || isLowerAlpha a || a == '.' || a == '-') &&
     !(b.isDigit || isLowerAlpha b || b == '.' || b == '-'))

/-- Split a lowercased version string into components: maximal digit
runs, maximal letter runs, single `.` or `-` characters, and runs of
any other characters. -/
def tokenizeVersion : List Char → List (List Char)
  | [] => []
  | [c] => [[c]]
  | c :: d :: rest =>
    match tokenizeVersion (d :: rest) with
    | [] => [[c]]
    | t :: ts => if sameComponent c d then (c :: t) :: ts else [c] :: t :: ts

/-- Component replacement table of the legacy version key:
`pre`/`preview`/`rc` become `c`, `dev` becomes `@`, and a `-` separator
becomes `final-`. -/
def replacePart (p : List Char) : List Char :=
  if p = "pre".data then "c".data
  else if p = "preview".data then "c".data
  else if p = "rc".data then "c".data
  else if p = "dev".data then "@".data
  else if p = "-".data then "final-".data
  else p

/-- Left-pad a numeric component with zeros to width 8 so that numeric
comparison coincides with lexical comparison. -/
def zfill8 (p : List Char) : List Char :=
  List.replicate (8 - p.length) '0' ++ p

/-- Normalize one component: drop empty components and bare `.`
separators, zero-pad numeric components, and mark every other component
with a leading `*`. -/
def normPart (p : List Char) : Option (List Char) :=
  match replacePart p with
  | [] => none
  | c :: rest =>
    if c = '.' ∧ rest = [] then none
    else if c.isDigit then some (zfill8 (c :: rest))
    else some ('*' :: c :: rest)

/-- The sentinel part `*final` appended after all components. -/
def starFinal : List Char := '*' :: "final".data

/-- The part produced by a bare `-` separator. -/
def starFinalDash : List Char := '*' :: "final-".data

/-- Eight zeros: the normalized form of a numeric component 0. -/
def zeros8 : List Char := List.replicate 8 '0'

/-- Normalized component sequence of a version string, ending in the
`*final` sentinel. -/
def partsList (s : String) : List (List Char) :=
  ((tokenizeVersion (s.data.map Char.toLower)).filterMap normPart) ++ [starFinal]

/-- Three-way lexicographic comparison of lists built from a three-way
comparison of their elements; a strict prefix compares less. -/
def cmpLex (cmp : α → α → Ordering) : List α → List α → Ordering
  | [], [] => .eq
  | [], _ :: _ => .lt
  | _ :: _, [] => .gt
  | a :: as, b :: bs =>
    match cmp a b with
    | .eq => cmpLex cmp as bs
    | o => o

/-- Three-way comparison of characters by code point. -/
def cmpChar (a b : Char) : Ordering :=
  if a.toNat < b.toNat then .lt
  else if b.toNat < a.toNat then .gt
  else .eq

/-- Drop every trailing occurrence of `x` from the accumulated parts
(the `while parts and parts[-1] == x: parts.pop ()` loops of the legacy
key construction). -/
def dropTrailing (x : List Char) (acc : List (List Char)) : List (List Char) :=
  (acc.reverse.dropWhile (fun y => decide (y = x))).reverse

/-- One step of assembling the legacy version key: before a `*`-marked
part that precedes `*final`, trailing `*final-` parts are discarded, and
before any `*`-marked part trailing zero components are discarded. -/
def assembleStep (acc : List (List Char)) (part : List Char) : List (List Char) :=
  if part.head? = some '*' then
    let acc2 := if cmpLex cmpChar part starFinal = .lt then dropTrailing starFinalDash acc else acc
    (dropTrailing zeros8 acc2) ++ [part]
  else acc ++ [part]

/-- Modelled from the spec: `compareKernels` delegates ordering to
`pkg_resources.parse_version`, third-party library code that is not part
of this repository.  It is modelled as the setuptools legacy version
key, which realizes the specification's numeric-then-lexical segment
comparison: the token is split on `.`/`-` boundaries into numeric and
alphabetic segments, numeric segments are zero-padded so that their
lexical order is their numeric order, and the resulting key tuples are
compared lexicographically. -/
def parse_version (s : String) : List (List Char) :=
  List.foldl assembleStep [] (partsList s)

/-- Lexicographic comparison of version keys. -/
def cmpKey : List (List Char) → List (List Char) → Ordering :=
  cmpLex (cmpLex cmpChar)

/-- Translation of `compareKernels`: 1 when `kernel1` parses greater
than `kernel2`, -1 when smaller, 0 when the parsed versions coincide. -/
def compareKernels (kernel1 kernel2 : String) : Int :=
  let kernel1Version := parse_version kernel1
  let kernel2Version := parse_version kernel2
  if cmpKey kernel1Version kernel2Version = .gt then 1
  else if cmpKey kernel1Version kernel2Version = .lt then -1
  else 0

/-- Translation of `getPackageManager`: probe `rpm`, `dpkg`, `pacman`
in that order by running each with `--version` through
`executeCommandWithExitStatus`; the first probe with exit status 0
selects the package manager, and if none succeeds `handleError` is
called with exit code 1. -/
def getPackageManager (env : SysEnv) : Except ScriptError String :=
  if executeCommandWithExitStatus env "rpm" ["--version"] = 0 then .ok "rpm"
  else if executeCommandWithExitStatus env "dpkg" ["--version"] = 0 then .ok "dpkg"
  else if executeCommandWithExitStatus env "pacman" ["--version"] = 0 then .ok "pacman"
  else .error (.handled "Package manager could not be determined" 1)

/-- Translation of `getCurrentKernel`: capture the output of
`uname -r` and extract a version token from it.  The source evaluates
`unameOutput.rstrip ()` but discards the result (strings are immutable
in Python), so the unstripped output is passed to the extractor. -/
def getCurrentKernel (env : SysEnv) : Except ScriptError String :=
  match executeCommandWithOutput env "uname" ["-r"] with
  | .error e => .error e
  | .ok unameOutput => extractKernelVersionString unameOutput

/-- Translation of the extraction loop of `getInstalledKernels`: apply
`extractKernelVersionString` to every line in order; the first failing
line terminates the whole run (`handleError` exits immediately), so no
partial result is produced. -/
def extractAll : List String → Except ScriptError (List String)
  | [] => .ok []
  | line :: rest =>
    match extractKernelVersionString line with
    | .error e => .error e
    | .ok versionString =>
      match extractAll rest with
      | .error e => .error e
      | .ok vs => .ok (versionString :: vs)

/-- Translation of `getInstalledKernels`: run the package-manager
specific listing command, strip trailing whitespace from the captured
output, split it on newlines, and extract one version token per line.
On a package-manager string other than the three known ones the Python
code would read the unassigned local `output` and crash, modelled by
`unboundLocal`. -/
def getInstalledKernels (env : SysEnv) (packageManager : String) :
    Except ScriptError (List String) :=
  let outputE : Except ScriptError String :=
    if packageManager = "rpm" then
      executeCommandWithOutput env "rpm" ["-qa", "kernel"]
    else if packageManager = "dpkg" then
      executeCommandWithOutput env "dpkg" ["--list", "|", "grep", "linux-image"]
    else if packageManager = "pacman" then
      executeCommandWithOutput env "pacman" ["-Q", "|", "grep", "linux"]
    else .error .unboundLocal
  match outputE with
  | .error e => .error e
  | .ok output => extractAll (pySplitNewline (pyRstrip output))

/-- Translation of `getNewKernels`: fold over the installed kernels,
appending each kernel that compares strictly greater than the current
one. -/
def getNewKernels (currentKernel : String) (installedKernels : List String) :
    List String :=
  List.foldl
    (fun newKernels installedKernel =>
      if compareKernels installedKernel currentKernel = 1 then
        newKernels ++ [installedKernel]
      else newKernels)
    [] installedKernels

/-- Path of the signing binary for a kernel, from `signKernel`. -/
def SIGN_BINARY_PATH (kernel : String) : String :=
  "/usr/src/kernels/" ++ kernel ++ "/scripts/sign-file"

/-- Path of the Nvidia module directory for a kernel, from
`signKernel`. -/
def MODULES_PATH (kernel : String) : String :=
  "/usr/lib/modules/" ++ kernel ++ "/extra/nvidia/"

/-- The fixed list of Nvidia kernel modules signed for every kernel. -/
def MODULE_NAMES : List String :=
  ["nvidia-drm.ko", "nvidia.ko", "nvidia-modeset.ko", "nvidia-uvm.ko"]

/-- Exit status of the signing invocation for one module of one kernel:
the signing binary is run with arguments
`sha256 <privateKeyPath> <publicKeyPath> <module-path>`. -/
def signingStatus (env : SysEnv) (kernel privateKeyPath publicKeyPath m : String) : Int :=
  executeCommandWithExitStatus env (SIGN_BINARY_PATH kernel)
    ["sha256", privateKeyPath, publicKeyPath, MODULES_PATH kernel ++ m]

/-- The argument vector of the signing invocation for one module. -/
def signingArgv (kernel privateKeyPath publicKeyPath m : String) : List String :=
  SIGN_BINARY_PATH kernel ::
    ["sha256", privateKeyPath, publicKeyPath, MODULES_PATH kernel ++ m]

/-- The four signing invocations performed for one kernel, in module
order. -/
def signingInvocations (kernel privateKeyPath publicKeyPath : String) :
    List (List String) :=
  MODULE_NAMES.map (signingArgv kernel privateKeyPath publicKeyPath)

/-- Loop body of `signKernel`: attempt the modules in order, recording
every invocation that was issued; on the first non-zero exit status call
`handleError` naming the module with exit code 2, abandoning the
remaining modules. -/
def signKernelLoop (env : SysEnv) (kernel privateKeyPath publicKeyPath : String) :
    List String → List (List String) × Except ScriptError Unit
  | [] => ([], .ok ())
  | m :: ms =>
    if signingStatus env kernel privateKeyPath publicKeyPath m ≠ 0 then
      ([signingArgv kernel privateKeyPath publicKeyPath m],
       .error (.handled ("Error signing kernel module: " ++ m) 2))
    else
      match signKernelLoop env kernel privateKeyPath publicKeyPath ms with
      | (trace, r) => (signingArgv kernel privateKeyPath publicKeyPath m :: trace, r)

/-- Translation of `signKernel`: sign the four fixed modules of one
kernel, returning the trace of signing invocations actually issued and
the outcome. -/
def signKernel (env : SysEnv) (kernel privateKeyPath publicKeyPath : String) :
    List (List String) × Except ScriptError Unit :=
  signKernelLoop env kernel privateKeyPath publicKeyPath MODULE_NAMES

/-- Translation of `signNewKernels`: call `signKernel` for every new
kernel in order, stopping at the first failure; the first component
collects every signing invocation issued. -/
def signNewKernels (env : SysEnv) (newKernels : List String)
    (privateKeyPath publicKeyPath : String) :
    List (List String) × Except ScriptError Unit :=
  match newKernels with
  | [] => ([], .ok ())
  | kernel :: rest =>
    match signKernel env kernel privateKeyPath publicKeyPath with
    | (trace, .error e) => (trace, .error e)
    | (trace, .ok _) =>
      match signNewKernels env rest privateKeyPath publicKeyPath with
      | (more, r) => (trace ++ more, r)

/-- Translation of the pipeline of `main`: detect the package manager,
determine the current kernel, enumerate the installed kernels, filter
the newer ones and sign them.  The result pairs the signing invocations
issued with the outcome; `.ok ()` is a normal termination with process
exit status 0, `.error (.handled _ c)` a termination with exit status
`c`. -/
def main_run (env : SysEnv) (privateKeyPath publicKeyPath : String) :
    List (List String) × Except ScriptError Unit :=
  match getPackageManager env with
  | .error e => ([], .error e)
  | .ok packageManager =>
    match getCurrentKernel env with
    | .error e => ([], .error e)
    | .ok currentKernel =>
      match getInstalledKernels env packageManager with
      | .error e => ([], .error e)
      | .ok installedKernels =>
        signNewKernels env (getNewKernels currentKernel installedKernels)
          privateKeyPath publicKeyPath

/-- Environment in which every launch starts successfully and exits with
status 1 after emitting `output` on stdout. -/
def envExitOne : SysEnv := ⟨fun _ => .ran 1 "output"⟩

/-- Environment in which every launch exits with status 0 and stdout
`hello`. -/
def envEcho : SysEnv := ⟨fun _ => .ran 0 "hello"⟩

/-- Environment in which no program can be launched, so every status
probe returns the sentinel 127. -/
def envNoPackageManager : SysEnv := ⟨fun _ => .noProgram⟩

/-- Environment in which every launch exits with status 0 and empty
stdout, so every signing invocation succeeds. -/
def envSignAll : SysEnv := ⟨fun _ => .ran 0 ""⟩

/-- Environment in which the rpm listing command emits two kernel
package lines. -/
def envRpmList : SysEnv :=
  ⟨fun argv =>
    if argv = ["rpm", "-qa", "kernel"] then
      .ran 0 "kernel-4.2.0.fc23\nkernel-4.3.0.fc23\n"
    else .noProgram⟩

/-- Environment in which `uname -r` reports a Fedora-style kernel
release with a trailing newline. -/
def envUname : SysEnv :=
  ⟨fun argv =>
    if argv = ["uname", "-r"] then .ran 0 "4.8.6-300.fc25\n" else .noProgram⟩

/-- Environment in which rpm is present, the current kernel is 5.0.0,
and the only installed kernel equals the current one. -/
def envNothingNew : SysEnv :=
  ⟨fun argv =>
    if argv = ["rpm", "--version"] then .ran 0 ""
    else if argv = ["uname", "-r"] then .ran 0 "5.0.0\n"
    else if argv = ["rpm", "-qa", "kernel"] then .ran 0 "kernel-5.0.0\n"
    else .noProgram⟩

theorem cmpChar_refl (a : Char) : cmpChar a a = .eq := by
  simp [cmpChar]

theorem cmpChar_swap (a b : Char) : cmpChar b a = (cmpChar a b).swap := by
  unfold cmpChar
  split_ifs <;> first | rfl | omega

theorem cmpChar_lt_trans (a b c : Char) (h1 : cmpChar a b = .lt)
    (h2 : cmpChar b c = .lt) : cmpChar a c = .lt := by
  unfold cmpChar at h1 h2 ⊢
  split_ifs at h1 h2 ⊢ <;> first | rfl | omega

theorem cmpChar_eq_congr (a b : Char) (h : cmpChar a b = .eq) (c : Char) :
    cmpChar a c = cmpChar b c := by
  have hab : a.toNat = b.toNat := by
    unfold cmpChar at h
    split_ifs at h <;> omega
  unfold cmpChar
  rw [hab]

theorem cmpLex_refl (cmp : α → α → Ordering) (h : ∀ a, cmp a a = .eq) :
    ∀ l, cmpLex cmp l l = .eq
  | [] => rfl
  | a :: as => by
    simp only [cmpLex, h a]
    exact cmpLex_refl cmp h as

theorem cmpLex_swap (cmp : α → α → Ordering)
    (h : ∀ a b, cmp b a = (cmp a b).swap) :
    ∀ l1 l2, cmpLex cmp l2 l1 = (cmpLex cmp l1 l2).swap
  | [], [] => rfl
  | [], _ :: _ => rfl
  | _ :: _, [] => rfl
  | a :: as, b :: bs => by
    simp only [cmpLex, h a b]
    cases hab : cmp a b <;>
      simp [Ordering.swap, cmpLex_swap cmp h as bs]

theorem cmpLex_eq_congr (cmp : α → α → Ordering)
    (hcongr : ∀ a b, cmp a b = .eq → ∀ c, cmp a c = cmp b c) :
    ∀ l1 l2, cmpLex cmp l1 l2 = .eq →
      ∀ l3, cmpLex cmp l1 l3 = cmpLex cmp l2 l3
  | [], [], _, _ => rfl
  | [], _ :: _, h, _ => by simp [cmpLex] at h
  | _ :: _, [], h, _ => by simp [cmpLex] at h
  | a :: as, b :: bs, h, l3 => by
    simp only [cmpLex] at h
    cases hab : cmp a b
    case lt => rw [hab] at h; exact Ordering.noConfusion h
    case gt => rw [hab] at h; exact Ordering.noConfusion h
    case eq =>
      rw [hab] at h
      replace h : cmpLex cmp as bs = Ordering.eq := h
      cases l3 with
      | nil => rfl
      | cons c cs =>
        simp only [cmpLex, hcongr a b hab c]
        cases hbc : cmp b c with
        | eq => exact cmpLex_eq_congr cmp hcongr as bs h cs
        | lt => rfl
        | gt => rfl

theorem cmpLex_lt_trans (cmp : α → α → Ordering)
    (hswap : ∀ a b, cmp b a = (cmp a b).swap)
    (hcongr : ∀ a b, cmp a b = .eq → ∀ c, cmp a c = cmp b c)
    (htrans : ∀ a b c, cmp a b = .lt → cmp b c = .lt → cmp a c = .lt) :
    ∀ l1 l2 l3, cmpLex cmp l1 l2 = .lt → cmpLex cmp l2 l3 = .lt →
      cmpLex cmp l1 l3 = .lt := by
  have hcongr2 : ∀ a b, cmp a b = .eq → ∀ c, cmp c a = cmp c b := by
    intro a b hab c
    rw [hswap a c, hswap b c, hcongr a b hab c]
  intro l1
  induction l1 with
  | nil =>
    intro l2 l3 h1 h2
    cases l2 with
    | nil => simp [cmpLex] at h1
    | cons b bs =>
      cases l3 with
      | nil => simp [cmpLex] at h2
      | cons c cs => rfl
  | cons a as ih =>
    intro l2 l3 h1 h2
    cases l2 with
    | nil => simp [cmpLex] at h1
    | cons b bs =>
      cases l3 with
      | nil => simp [cmpLex] at h2
      | cons c cs =>
        simp only [cmpLex] at h1 h2 ⊢
        cases hab : cmp a b
        case lt =>
          cases hbc : cmp b c
          case lt => rw [htrans a b c hab hbc]
          case eq => rw [← hcongr2 b c hbc a, hab]
          case gt => rw [hbc] at h2; exact Ordering.noConfusion h2
        case eq =>
          rw [hab] at h1
          replace h1 : cmpLex cmp as bs = Ordering.lt := h1
          cases hbc : cmp b c
          case lt => rw [hcongr a b hab c, hbc]
          case eq =>
            rw [hbc] at h2
            replace h2 : cmpLex cmp bs cs = Ordering.lt := h2
            rw [hcongr a b hab c, hbc]
            exact ih bs cs h1 h2
          case gt => rw [hbc] at h2; exact Ordering.noConfusion h2
        case gt =>
          rw [hab] at h1
          exact Ordering.noConfusion h1

theorem cmpKey_refl (k : List (List Char)) : cmpKey k k = .eq :=
  cmpLex_refl (cmpLex cmpChar) (cmpLex_refl cmpChar cmpChar_refl) k

theorem cmpKey_swap (k1 k2 : List (List Char)) :
    cmpKey k2 k1 = (cmpKey k1 k2).swap :=
  cmpLex_swap (cmpLex cmpChar) (cmpLex_swap cmpChar cmpChar_swap) k1 k2

theorem cmpKey_lt_trans (k1 k2 k3 : List (List Char))
    (h1 : cmpKey k1 k2 = .lt) (h2 : cmpKey k2 k3 = .lt) : cmpKey k1 k3 = .lt :=
  cmpLex_lt_trans (cmpLex cmpChar) (cmpLex_swap cmpChar cmpChar_swap)
    (cmpLex_eq_congr cmpChar cmpChar_eq_congr)
    (cmpLex_lt_trans cmpChar cmpChar_swap cmpChar_eq_congr cmpChar_lt_trans)
    k1 k2 k3 h1 h2

theorem compareKernels_eq_one_iff (a b : String) :
    compareKernels a b = 1 ↔ cmpKey (parse_version a) (parse_version b) = .gt := by
  cases h : cmpKey (parse_version a) (parse_version b) <;>
    simp [compareKernels, h]

theorem compareKernels_eq_negone_iff (a b : String) :
    compareKernels a b = -1 ↔ cmpKey (parse_version a) (parse_version b) = .lt := by
  cases h : cmpKey (parse_version a) (parse_version b) <;>
    simp [compareKernels, h]

/-- C5: `compareKernels` is total over any two tokens (it always returns
one of 1, -1, 0 and has no fatal conditions), and it behaves as a strict
total order: comparison of a token with itself yields EQUAL, GREATER and
LESS are opposite, GREATER is transitive, and the specification's three
examples hold (GREATER is 1, LESS is -1, EQUAL is 0). -/
theorem compareKernels_strict_total_order :
    (∀ a b : String,
      compareKernels a b = 1 ∨ compareKernels a b = -1 ∨ compareKernels a b = 0) ∧
    (∀ a : String, compareKernels a a = 0) ∧
    (∀ a b : String, compareKernels a b = 1 ↔ compareKernels b a = -1) ∧
    (∀ a b c : String,
      compareKernels a b = 1 → compareKernels b c = 1 → compareKernels a c = 1) ∧
    compareKernels "4.7.2-201" "4.5.5" = 1 ∧
    compareKernels "5.10.0" "5.9.9" = 1 ∧
    compareKernels "4.7.2" "4.7.2" = 0 := by
  refine ⟨?_, ?_, ?_, ?_, by decide, by decide, by decide⟩
  · intro a b
    cases h : cmpKey (parse_version a) (parse_version b) <;>
      simp [compareKernels, h]
  · intro a
    simp [compareKernels, cmpKey_refl]
  · intro a b
    rw [compareKernels_eq_one_iff, compareKernels_eq_negone_iff,
      cmpKey_swap (parse_version a) (parse_version b)]
    cases h : cmpKey (parse_version a) (parse_version b) <;>
      simp [h, Ordering.swap]
  · intro a b c h1 h2
    rw [compareKernels_eq_one_iff] at h1 h2 ⊢
    have hba : cmpKey (parse_version b) (parse_version a) = .lt := by
      rw [cmpKey_swap (parse_version a) (parse_version b), h1]
      rfl
    have hcb : cmpKey (parse_version c) (parse_version b) = .lt := by
      rw [cmpKey_swap (parse_version b) (parse_version c), h2]
      rfl
    have hca : cmpKey (parse_version c) (parse_version a) = .lt :=
      cmpKey_lt_trans (parse_version c) (parse_version b) (parse_version a) hcb hba
    rw [cmpKey_swap (parse_version c) (parse_version a), hca]
    rfl

theorem compareKernels_strict_total_order_witness :
    compareKernels "4.9.1" "4.8.2" = 1 ∧ compareKernels "4.8.2" "4.7.3" = 1 ∧
    compareKernels "4.9.1" "4.7.3" = 1 :=
  ⟨by decide, by decide,
    compareKernels_strict_total_order.2.2.2.1 "4.9.1" "4.8.2" "4.7.3"
      (by decide) (by decide)⟩

theorem getNewKernels_foldl (currentKernel : String) :
    ∀ (installedKernels acc : List String),
      List.foldl
        (fun newKernels installedKernel =>
          if compareKernels installedKernel currentKernel = 1 then
            newKernels ++ [installedKernel]
          else newKernels)
        acc installedKernels =
      acc ++ installedKernels.filter
        (fun k => decide (compareKernels k currentKernel = 1))
  | [], acc => by simp
  | k :: rest, acc => by
    by_cases hc : compareKernels k currentKernel = 1
    · simp [List.foldl_cons, List.filter_cons, hc,
        getNewKernels_foldl currentKernel rest (acc ++ [k])]
    · simp [List.foldl_cons, List.filter_cons, hc,
        getNewKernels_foldl currentKernel rest acc]

/-- C1: `getNewKernels` returns exactly the installed kernels comparing
strictly GREATER than the current kernel, preserving the input order
(it is the order-preserving filter by `compareKernels _ current = 1`,
so kernels comparing EQUAL or LESS are excluded), and on the
specification's example it returns `["4.8.0-1"]`. -/
theorem getNewKernels_filter :
    (∀ (currentKernel : String) (installedKernels : List String),
      getNewKernels currentKernel installedKernels =
        installedKernels.filter
          (fun k => decide (compareKernels k currentKernel = 1))) ∧
    getNewKernels "4.7.2-201" ["4.5.5", "4.7.2-201", "4.8.0-1"] = ["4.8.0-1"] := by
  constructor
  · intro currentKernel installedKernels
    rw [getNewKernels, getNewKernels_foldl currentKernel installedKernels []]
    rfl
  · decide

theorem mem_takeWhile_pred (p : α → Bool) :
    ∀ (l : List α) (a : α), a ∈ List.takeWhile p l → p a = true
  | [], a, h => by simp [List.takeWhile] at h
  | b :: l, a, h => by
    rw [List.takeWhile_cons] at h
    cases hb : p b
    · rw [hb] at h
      simp at h
    · rw [hb] at h
      simp only [if_true] at h
      rcases List.mem_cons.mp h with h1 | h1
      · rw [h1]
        exact hb
      · exact mem_takeWhile_pred p l a h1

theorem takeWhile_append_all (p : α → Bool) :
    ∀ (t post : List α), (∀ c ∈ t, p c = true) →
      List.takeWhile p (t ++ post) = t ++ List.takeWhile p post
  | [], _, _ => rfl
  | c :: t, post, h => by
    have hc : p c = true := h c (List.mem_cons_self c t)
    simp only [List.cons_append, List.takeWhile_cons, hc, if_true]
    rw [takeWhile_append_all p t post (fun d hd => h d (List.mem_cons_of_mem c hd))]

theorem takeWhile_append_nil (p : α → Bool) :
    ∀ (x w : List α), List.takeWhile p w = [] →
      List.takeWhile p (x ++ w) = List.takeWhile p x
  | [], w, h => by simpa using h
  | c :: x, w, h => by
    cases hc : p c <;>
      simp [List.takeWhile_cons, hc, takeWhile_append_nil p x w h]

theorem takeWhile_blocks (post : List Char) (h : blocksMatch post = true) :
    List.takeWhile vchar post = [] := by
  cases post with
  | nil => rfl
  | cons c t =>
    have hc : vchar c = false := by
      simp [blocksMatch] at h
      exact h
    simp [List.takeWhile_cons, hc]

theorem findMatch_first (pre : List Char) :
    ∀ (l m post : List Char), l = pre ++ m ++ post → matchesPattern m →
      blocksMatch post = true →
      (∀ j, j < pre.length → goodStart (l.drop j) = false) →
      findMatch l = some m := by
  induction pre with
  | nil =>
    intro l m post hl hm hb _
    obtain ⟨d, t, hmd, hd, ht, hall⟩ := hm
    subst hmd
    cases t with
    | nil => exact absurd rfl ht
    | cons u t2 =>
      have hu : vchar u = true := hall u (List.mem_cons_self u t2)
      have hl2 : l = d :: (u :: (t2 ++ post)) := by
        rw [hl]
        simp
      rw [hl2]
      rw [findMatch]
      have hg : goodStart (d :: u :: (t2 ++ post)) = true := by
        simp [goodStart, hd, hu]
      rw [if_pos hg]
      have : List.takeWhile vchar (u :: (t2 ++ post)) = u :: t2 := by
        have h1 : List.takeWhile vchar ((u :: t2) ++ post) =
            (u :: t2) ++ List.takeWhile vchar post :=
          takeWhile_append_all vchar (u :: t2) post hall
        rw [takeWhile_blocks post hb] at h1
        simpa using h1
      rw [this]
  | cons a pre2 ih =>
    intro l m post hl hm hb hj
    have h0 : goodStart l = false := by
      have := hj 0 (by simp)
      simpa using this
    have hl2 : l = a :: (pre2 ++ m ++ post) := by
      rw [hl, List.cons_append, List.cons_append]
    rw [hl2]
    rw [findMatch]
    rw [hl2] at h0
    rw [h0, if_neg Bool.false_ne_true]
    refine ih (pre2 ++ m ++ post) m post rfl hm hb ?_
    intro j hjlen
    have := hj (j + 1) (by simpa using Nat.succ_lt_succ hjlen)
    rw [hl2] at this
    simpa [List.drop_succ_cons] using this

theorem findMatch_some_decomp :
    ∀ (l m : List Char), findMatch l = some m →
      matchesPattern m ∧ ∃ pre post, l = pre ++ m ++ post
  | [], m, h => by simp [findMatch] at h
  | c :: rest, m, h => by
    rw [findMatch] at h
    cases hg : goodStart (c :: rest)
    · rw [if_neg (by simp [hg])] at h
      obtain ⟨hm, pre, post, hdec⟩ := findMatch_some_decomp rest m h
      exact ⟨hm, c :: pre, post, by rw [hdec]; rfl⟩
    · rw [if_pos hg] at h
      cases rest with
      | nil => simp [goodStart] at hg
      | cons d rest2 =>
        have hcd : c.isDigit = true ∧ vchar d = true := by
          simpa [goodStart] using hg
        have hm : m = c :: List.takeWhile vchar (d :: rest2) :=
          (Option.some.injEq _ _ ▸ h).symm
        constructor
        · refine ⟨c, List.takeWhile vchar (d :: rest2), hm, hcd.1, ?_, ?_⟩
          · simp [List.takeWhile_cons, hcd.2]
          · intro x hx
            exact mem_takeWhile_pred vchar (d :: rest2) x hx
        · refine ⟨[], List.dropWhile vchar (d :: rest2), ?_⟩
          rw [hm]
          simp [List.takeWhile_append_dropWhile]

theorem findMatch_ne_none_of_decomp :
    ∀ (pre m post : List Char), matchesPattern m →
      findMatch (pre ++ m ++ post) ≠ none := by
  intro pre m post hm h
  have hfirst : ∀ l : List Char, (∃ p2 q2, l = p2 ++ m ++ q2) →
      findMatch l = none → False := by
    intro l
    induction l with
    | nil =>
      intro hdec _
      obtain ⟨d, t, hmd, _, _, _⟩ := hm
      obtain ⟨p2, q2, hl⟩ := hdec
      rw [hmd] at hl
      simp at hl
    | cons c rest ihl =>
      intro hdec hnone
      rw [findMatch] at hnone
      cases hg : goodStart (c :: rest)
      · rw [if_neg (by simp [hg])] at hnone
        obtain ⟨p2, q2, hl⟩ := hdec
        cases p2 with
        | nil =>
          obtain ⟨d, t, hmd, hd, ht, hall⟩ := hm
          cases t with
          | nil => exact absurd rfl ht
          | cons u t2 =>
            rw [hmd] at hl
            simp at hl
            have hcd : c = d := hl.1
            have hrest : rest = u :: (t2 ++ q2) := by
              simpa using hl.2
            rw [hcd, hrest] at hg
            have hu : vchar u = true := hall u (List.mem_cons_self u t2)
            simp [goodStart, hd, hu] at hg
        | cons x p3 =>
          have hl2 : rest = p3 ++ m ++ q2 := by
            have := hl
            simp at this
            rw [List.append_assoc]
            exact this.2
          exact ihl ⟨p3, q2, hl2⟩ hnone
      · rw [if_pos hg] at hnone
        exact Option.noConfusion hnone
  exact hfirst (pre ++ m ++ post) ⟨pre, post, rfl⟩ h

theorem no_decomp_of_findMatch_none (l : List Char) (h : findMatch l = none) :
    ∀ m pre post, l = pre ++ m ++ post → ¬ matchesPattern m := by
  intro m pre post hl hm
  exact findMatch_ne_none_of_decomp pre m post hm (hl ▸ h)

/-- C3 counterexample: on the specification's example line the maximal
match of `digit (digit|.|-|letter)+` extends through `.x86` (it stops
only at the underscore), so the extractor does not return
`"4.7.2-201"`. -/
theorem extractKernelVersionString_example_refuted :
    extractKernelVersionString "linux-image-4.7.2-201.x86_64" ≠ .ok "4.7.2-201" ∧
    extractKernelVersionString "linux-image-4.7.2-201.x86_64" = .ok "4.7.2-201.x86" := by
  constructor <;> decide

/-- C3 (amended): for every input line containing a substring matching
`digit (digit|.|-|letter)+`, `extractKernelVersionString` returns the
first maximal such substring, with its single final character dropped
when that final character is neither a digit nor a letter; in particular
on `"linux-image-4.7.2-201.x86_64"` the first maximal such substring is
`"4.7.2-201.x86"` (the match stops at the underscore), which is
returned unchanged. -/
theorem extractKernelVersionString_first_maximal :
    (∀ (line : String) (m : List Char), firstMaximalMatch line.data m →
      extractKernelVersionString line = .ok ⟨stripTrailingSep m⟩) ∧
    extractKernelVersionString "linux-image-4.7.2-201.x86_64" = .ok "4.7.2-201.x86" := by
  constructor
  · intro line m hfmm
    obtain ⟨pre, post, hdec, hm, hb, hj⟩ := hfmm
    have hfm : findMatch line.data = some m :=
      findMatch_first pre line.data m post hdec hm hb hj
    rw [extractKernelVersionString, hfm]
  · decide

theorem extractKernelVersionString_first_maximal_witness :
    extractKernelVersionString "a-4.7-rc1!" = .ok ⟨stripTrailingSep "4.7-rc1".data⟩ ∧
    ⟨stripTrailingSep "4.7-rc1".data⟩ = "4.7-rc1" := by
  refine ⟨?_, by decide⟩
  refine extractKernelVersionString_first_maximal.1 "a-4.7-rc1!" "4.7-rc1".data
    ⟨"a-".data, "!".data, by decide, ⟨'4', ".7-rc1".data, by decide, by decide,
      by decide, by decide⟩, by decide, by decide⟩

/-- C4: the extractor never yields an empty token: on a line containing
no substring matching `digit (digit|.|-|letter)+` it fails with the
version-extraction error (`handleError` with exit code 3, returning no
value), and whenever it succeeds the returned token is non-empty. -/
theorem extractKernelVersionString_never_empty :
    (∀ line : String,
      (∀ m pre post, line.data = pre ++ m ++ post → ¬ matchesPattern m) →
      extractKernelVersionString line =
        .error (.handled
          ("Unable to extract version string for kernel line: " ++ line) 3)) ∧
    (∀ line v : String, extractKernelVersionString line = .ok v → v ≠ "") := by
  constructor
  · intro line hno
    cases hfm : findMatch line.data with
    | none => rw [extractKernelVersionString, hfm]
    | some m =>
      obtain ⟨hm, pre, post, hdec⟩ := findMatch_some_decomp line.data m hfm
      exact absurd hm (hno m pre post hdec)
  · intro line v hok
    cases hfm : findMatch line.data with
    | none =>
      rw [extractKernelVersionString, hfm] at hok
      exact Except.noConfusion hok
    | some m =>
      rw [extractKernelVersionString, hfm] at hok
      obtain ⟨⟨d, t, hmd, _, ht, _⟩, _⟩ := findMatch_some_decomp line.data m hfm
      have hlen : 2 ≤ m.length := by
        rw [hmd]
        cases t with
        | nil => exact absurd rfl ht
        | cons u t2 => simp [Nat.succ_le_succ, Nat.succ_le_of_lt, Nat.succ_pos]
      have hne : stripTrailingSep m ≠ [] := by
        rw [stripTrailingSep]
        cases hg : m.getLast? with
        | none =>
          rw [List.getLast?_eq_none_iff] at hg
          rw [hg] at hlen
          simp at hlen
        | some c =>
          have hmne : m ≠ [] := by
            intro hnil
            rw [hnil] at hlen
            simp at hlen
          by_cases hca : c.isDigit || c.isAlpha
          · simpa [hca] using hmne
          · have : m.dropLast.length = m.length - 1 := List.length_dropLast m
            have hpos : 0 < m.dropLast.length := by omega
            simp only [hca, if_false]
            exact List.ne_nil_of_length_pos hpos
      have hv : v = (⟨stripTrailingSep m⟩ : String) := by
        exact (Except.ok.injEq _ _ ▸ hok).symm
      rw [hv]
      intro hcontra
      exact hne (congrArg String.data hcontra)

theorem extractKernelVersionString_never_empty_witness :
    extractKernelVersionString "no version here!" =
      .error (.handled
        "Unable to extract version string for kernel line: no version here!" 3) ∧
    ("4.7b" : String) ≠ "" := by
  constructor
  · exact extractKernelVersionString_never_empty.1 "no version here!"
      (no_decomp_of_findMatch_none ("no version here!".data) (by decide))
  · exact extractKernelVersionString_never_empty.2 "x4.7b" "4.7b" (by decide)

/-- C2 counterexample: when the launched process exits with status 1,
`executeCommandWithOutput` does not return the captured stdout — the
underlying `subprocess.check_output` inspects the exit code and raises
`CalledProcessError`, which the function does not catch. -/
theorem executeCommandWithOutput_exitcode_refuted :
    executeCommandWithOutput envExitOne "somecmd" [] ≠ .ok "output" ∧
    executeCommandWithOutput envExitOne "somecmd" [] =
      .error (.calledProcessError 1) := by
  constructor <;> decide

/-- C2 (amended): `executeCommandWithOutput` returns the decoded
standard output exactly when the program starts and exits with status 0;
when the program cannot be found/started it fails with the propagated
`OSError` (the spec's `ExecutionError`), and when the process exits with
a non-zero status it fails with the uncaught `CalledProcessError` raised
by `subprocess.check_output`, which does inspect the exit code. -/
theorem executeCommandWithOutput_spec :
    ∀ (env : SysEnv) (commandName : String) (commandArgs : List String),
      (env.runProcess (commandName :: commandArgs) = .noProgram →
        executeCommandWithOutput env commandName commandArgs = .error .osError) ∧
      (∀ stdout, env.runProcess (commandName :: commandArgs) = .ran 0 stdout →
        executeCommandWithOutput env commandName commandArgs = .ok stdout) ∧
      (∀ exitCode stdout,
        env.runProcess (commandName :: commandArgs) = .ran exitCode stdout →
        exitCode ≠ 0 →
        executeCommandWithOutput env commandName commandArgs =
          .error (.calledProcessError exitCode)) := by
  intro env commandName commandArgs
  refine ⟨?_, ?_, ?_⟩
  · intro h
    simp [executeCommandWithOutput, h]
  · intro stdout h
    simp [executeCommandWithOutput, h]
  · intro exitCode stdout h hne
    simp [executeCommandWithOutput, h, hne]

theorem executeCommandWithOutput_spec_witness :
    executeCommandWithOutput envEcho "echo" ["hi"] = .ok "hello" :=
  (executeCommandWithOutput_spec envEcho "echo" ["hi"]).2.1 "hello" rfl

/-- C6: `getPackageManager` probes `rpm`, `dpkg`, `pacman` in that fixed
priority order, running each with `--version` through
`executeCommandWithExitStatus`, and returns the first whose probe exits
with status 0; when all three probes return a non-zero status it fails
through `handleError` with exit code 1 (package manager not found). -/
theorem getPackageManager_priority :
    ∀ env : SysEnv,
      (executeCommandWithExitStatus env "rpm" ["--version"] = 0 →
        getPackageManager env = .ok "rpm") ∧
      (executeCommandWithExitStatus env "rpm" ["--version"] ≠ 0 →
        executeCommandWithExitStatus env "dpkg" ["--version"] = 0 →
        getPackageManager env = .ok "dpkg") ∧
      (executeCommandWithExitStatus env "rpm" ["--version"] ≠ 0 →
        executeCommandWithExitStatus env "dpkg" ["--version"] ≠ 0 →
        executeCommandWithExitStatus env "pacman" ["--version"] = 0 →
        getPackageManager env = .ok "pacman") ∧
      (executeCommandWithExitStatus env "rpm" ["--version"] ≠ 0 →
        executeCommandWithExitStatus env "dpkg" ["--version"] ≠ 0 →
        executeCommandWithExitStatus env "pacman" ["--version"] ≠ 0 →
        getPackageManager env =
          .error (.handled "Package manager could not be determined" 1)) := by
  intro env
  refine ⟨?_, ?_, ?_, ?_⟩ <;> intros <;> simp [getPackageManager, *]

theorem getPackageManager_priority_witness :
    getPackageManager envNoPackageManager =
      .error (.handled "Package manager could not be determined" 1) :=
  (getPackageManager_priority envNoPackageManager).2.2.2
    (by decide) (by decide) (by decide)

/-- C7: `signKernel` issues the signing invocation once per module of
the fixed four-element module list, in order, each with arguments
`sha256 <privateKeyPath> <publicKeyPath> <module-path>`; when all four
invocations exit 0 all four modules are signed, and when the invocation
for module `i` is the first returning a non-zero status the function
stops after invocations 0..i (no later module of the kernel is
attempted, and the earlier successful invocations are not rolled back)
and fails through `handleError` naming that module with exit code 2. -/
theorem signKernel_per_module :
    ∀ (env : SysEnv) (kernel privateKeyPath publicKeyPath : String),
      ((∀ m ∈ MODULE_NAMES,
          signingStatus env kernel privateKeyPath publicKeyPath m = 0) →
        signKernel env kernel privateKeyPath publicKeyPath =
          (signingInvocations kernel privateKeyPath publicKeyPath, .ok ())) ∧
      (∀ i, i < MODULE_NAMES.length →
        (∀ j, j < i →
          signingStatus env kernel privateKeyPath publicKeyPath
            (MODULE_NAMES.getD j "") = 0) →
        signingStatus env kernel privateKeyPath publicKeyPath
          (MODULE_NAMES.getD i "") ≠ 0 →
        signKernel env kernel privateKeyPath publicKeyPath =
          ((signingInvocations kernel privateKeyPath publicKeyPath).take (i + 1),
           .error (.handled
             ("Error signing kernel module: " ++ MODULE_NAMES.getD i "") 2))) := by
  intro env kernel privateKeyPath publicKeyPath
  constructor
  · intro hall
    have h0 := hall "nvidia-drm.ko" (by simp [ MODULE_NAMES])
    have h1 := hall "nvidia.ko" (by simp [ MODULE_NAMES])
    have h2 := hall "nvidia-modeset.ko" (by simp [ MODULE_NAMES])
    have h3 := hall "nvidia-uvm.ko" (by simp [ MODULE_NAMES])
    simp [signKernel, MODULE_NAMES, signKernelLoop, signingInvocations,
      h0, h1, h2, h3]
  · intro i hi hz hne
    have hi4 : i < 4 := by simpa [ MODULE_NAMES] using hi
    have g0 : MODULE_NAMES.getD 0 "" = "nvidia-drm.ko" := rfl
    have g1 : MODULE_NAMES.getD 1 "" = "nvidia.ko" := rfl
    have g2 : MODULE_NAMES.getD 2 "" = "nvidia-modeset.ko" := rfl
    have g3 : MODULE_NAMES.getD 3 "" = "nvidia-uvm.ko" := rfl
    interval_cases i
    · rw [g0] at hne ⊢
      simp [signKernel, MODULE_NAMES, signKernelLoop, signingInvocations, hne]
    · have h0 := hz 0 (by omega)
      rw [g0] at h0
      rw [g1] at hne ⊢
      simp [signKernel, MODULE_NAMES, signKernelLoop, signingInvocations,
        h0, hne]
    · have h0 := hz 0 (by omega)
      have h1 := hz 1 (by omega)
      rw [g0] at h0
      rw [g1] at h1
      rw [g2] at hne ⊢
      simp [signKernel, MODULE_NAMES, signKernelLoop, signingInvocations,
        h0, h1, hne]
    · have h0 := hz 0 (by omega)
      have h1 := hz 1 (by omega)
      have h2 := hz 2 (by omega)
      rw [g0] at h0
      rw [g1] at h1
      rw [g2] at h2
      rw [g3] at hne ⊢
      simp [signKernel, MODULE_NAMES, signKernelLoop, signingInvocations,
        h0, h1, h2, hne]

theorem signKernel_per_module_witness :
    signKernel envSignAll "5.1.0" "priv.key" "pub.der" =
      (signingInvocations "5.1.0" "priv.key" "pub.der", .ok ()) :=
  (signKernel_per_module envSignAll "5.1.0" "priv.key" "pub.der").1 (by decide)

theorem extractAll_ok_of_forall₂ :
    ∀ (lines ks : List String),
      List.Forall₂ (fun line k => extractKernelVersionString line = .ok k) lines ks →
      extractAll lines = .ok ks := by
  intro lines ks h
  induction h with
  | nil => rfl
  | cons hlk _ ihtail =>
    rw [extractAll, hlk, ihtail]

theorem forall₂_of_extractAll_ok :
    ∀ (lines ks : List String), extractAll lines = .ok ks →
      List.Forall₂ (fun line k => extractKernelVersionString line = .ok k) lines ks
  | [], ks, h => by
    rw [extractAll] at h
    have : ([] : List String) = ks := Except.ok.injEq _ _ ▸ h
    rw [← this]
    exact List.Forall₂.nil
  | line :: rest, ks, h => by
    rw [extractAll] at h
    cases he : extractKernelVersionString line with
    | error e =>
      rw [he] at h
      exact Except.noConfusion h
    | ok v =>
      rw [he] at h
      cases hr : extractAll rest with
      | error e =>
        rw [hr] at h
        exact Except.noConfusion h
      | ok vs =>
        rw [hr] at h
        have hks : v :: vs = ks := Except.ok.injEq _ _ ▸ h
        rw [← hks]
        exact List.Forall₂.cons he (forall₂_of_extractAll_ok rest vs hr)

theorem extractAll_error_first :
    ∀ (pre : List String) (line : String) (post : List String) (e : ScriptError),
      (∀ x ∈ pre, ∃ v, extractKernelVersionString x = .ok v) →
      extractKernelVersionString line = .error e →
      extractAll (pre ++ line :: post) = .error e
  | [], line, post, e, _, he => by
    rw [List.nil_append, extractAll, he]
  | x :: pre2, line, post, e, hok, he => by
    obtain ⟨v, hv⟩ := hok x (List.mem_cons_self x pre2)
    rw [List.cons_append, extractAll, hv,
      extractAll_error_first pre2 line post e
        (fun y hy => hok y (List.mem_cons_of_mem x hy)) he]

/-- C8: `getInstalledKernels` runs a distinct listing command per
package-manager kind; it splits the captured output (with trailing
whitespace stripped) into lines and extracts exactly one version token
per line: it succeeds with `ks` exactly when the lines and `ks`
correspond pointwise in emitted order (no deduplication or sorting), and
as soon as some line fails extraction — every earlier line extracting
fine — the whole enumeration fails with that line's error and no partial
result. -/
theorem getInstalledKernels_per_line :
    (["rpm", "-qa", "kernel"] ≠ ["dpkg", "--list", "|", "grep", "linux-image"] ∧
     ["rpm", "-qa", "kernel"] ≠ ["pacman", "-Q", "|", "grep", "linux"] ∧
     ["dpkg", "--list", "|", "grep", "linux-image"] ≠
       ["pacman", "-Q", "|", "grep", "linux"]) ∧
    ∀ (env : SysEnv) (pm commandName : String) (commandArgs : List String),
      (pm, commandName, commandArgs) ∈
        [("rpm", "rpm", ["-qa", "kernel"]),
         ("dpkg", "dpkg", ["--list", "|", "grep", "linux-image"]),
         ("pacman", "pacman", ["-Q", "|", "grep", "linux"])] →
      ∀ output, executeCommandWithOutput env commandName commandArgs = .ok output →
        (∀ ks, getInstalledKernels env pm = .ok ks ↔
          List.Forall₂ (fun line k => extractKernelVersionString line = .ok k)
            (pySplitNewline (pyRstrip output)) ks) ∧
        (∀ pre line post e,
          pySplitNewline (pyRstrip output) = pre ++ line :: post →
          (∀ x ∈ pre, ∃ v, extractKernelVersionString x = .ok v) →
          extractKernelVersionString line = .error e →
          getInstalledKernels env pm = .error e) := by
  refine ⟨⟨by decide, by decide, by decide⟩, ?_⟩
  intro env pm commandName commandArgs hmem output hout
  have hred : getInstalledKernels env pm =
      extractAll (pySplitNewline (pyRstrip output)) := by
    fin_cases hmem <;> simp [getInstalledKernels, hout]
  constructor
  · intro ks
    rw [hred]
    exact ⟨forall₂_of_extractAll_ok (pySplitNewline (pyRstrip output)) ks,
      extractAll_ok_of_forall₂ (pySplitNewline (pyRstrip output)) ks⟩
  · intro pre line post e hsplit hpre he
    rw [hred, hsplit]
    exact extractAll_error_first pre line post e hpre he

theorem getInstalledKernels_per_line_witness :
    getInstalledKernels envRpmList "rpm" = .ok ["4.2.0.fc23", "4.3.0.fc23"] := by
  have h := (getInstalledKernels_per_line.2 envRpmList "rpm" "rpm"
    ["-qa", "kernel"] (by decide) "kernel-4.2.0.fc23\nkernel-4.3.0.fc23\n"
    (by decide))
  exact (h.1 ["4.2.0.fc23", "4.3.0.fc23"]).mpr
    (List.Forall₂.cons (by decide) (List.Forall₂.cons (by decide) List.Forall₂.nil))

theorem isPySpace_not_digit (c : Char) (h : isPySpace c = true) :
    c.isDigit = false := by
  simp [isPySpace] at h
  rcases h with ((((h | h) | h) | h) | h) | h <;> subst h <;> decide

theorem isPySpace_not_vchar (c : Char) (h : isPySpace c = true) :
    vchar c = false := by
  simp [isPySpace] at h
  rcases h with ((((h | h) | h) | h) | h) | h <;> subst h <;> decide

theorem takeWhile_vchar_space (w : List Char)
    (h : ∀ c ∈ w, isPySpace c = true) : List.takeWhile vchar w = [] := by
  cases w with
  | nil => rfl
  | cons c w2 =>
    have hc : vchar c = false :=
      isPySpace_not_vchar c (h c (List.mem_cons_self c w2))
    simp [List.takeWhile_cons, hc]

theorem findMatch_all_space :
    ∀ w : List Char, (∀ c ∈ w, isPySpace c = true) → findMatch w = none
  | [], _ => rfl
  | c :: w2, h => by
    have hc : c.isDigit = false :=
      isPySpace_not_digit c (h c (List.mem_cons_self c w2))
    have hg : goodStart (c :: w2) = false := by
      cases w2 with
      | nil => rfl
      | cons d w3 => simp [goodStart, hc]
    rw [findMatch, if_neg (by simp [hg])]
    exact findMatch_all_space w2 (fun x hx => h x (List.mem_cons_of_mem c hx))

theorem findMatch_append_space :
    ∀ (l w : List Char), (∀ c ∈ w, isPySpace c = true) →
      findMatch (l ++ w) = findMatch l
  | [], w, h => by
    rw [List.nil_append, findMatch_all_space w h]
    rfl
  | [c], w, h => by
    cases w with
    | nil => simp
    | cons d w2 =>
      have hd : vchar d = false :=
        isPySpace_not_vchar d (h d (List.mem_cons_self d w2))
      have hg : goodStart (c :: d :: w2) = false := by
        simp [goodStart, hd]
      rw [List.cons_append, List.nil_append, findMatch,
        if_neg (by simp [hg]), findMatch_all_space (d :: w2) h]
      rfl
  | c :: d :: l3, w, h => by
    have hgs : goodStart (c :: ((d :: l3) ++ w)) = goodStart (c :: d :: l3) := rfl
    cases hg : goodStart (c :: d :: l3) with
    | true =>
      have htw : List.takeWhile vchar w = [] := takeWhile_vchar_space w h
      rw [List.cons_append, findMatch, if_pos (hgs.trans hg), findMatch,
        if_pos hg, takeWhile_append_nil vchar (d :: l3) w htw]
    | false =>
      rw [List.cons_append, findMatch,
        if_neg (by simp only [hgs, hg]; exact Bool.false_ne_true), findMatch,
        if_neg (by simp only [hg]; exact Bool.false_ne_true)]
      exact findMatch_append_space (d :: l3) w h

theorem mem_of_mem_rstrip_tail (s : String) (c : Char)
    (hc : c ∈ (s.data.reverse.takeWhile isPySpace).reverse) :
    isPySpace c = true :=
  mem_takeWhile_pred isPySpace s.data.reverse c (List.mem_reverse.mp hc)

theorem data_decomp_rstrip (s : String) :
    s.data = (pyRstrip s).data ++ (s.data.reverse.takeWhile isPySpace).reverse := by
  have h1 : s.data = s.data.reverse.reverse := (List.reverse_reverse s.data).symm
  have h2 : s.data.reverse =
      List.takeWhile isPySpace s.data.reverse ++
        List.dropWhile isPySpace s.data.reverse :=
    (List.takeWhile_append_dropWhile isPySpace s.data.reverse).symm
  calc s.data = s.data.reverse.reverse := h1
    _ = (List.takeWhile isPySpace s.data.reverse ++
          List.dropWhile isPySpace s.data.reverse).reverse := by rw [← h2]
    _ = (List.dropWhile isPySpace s.data.reverse).reverse ++
          (List.takeWhile isPySpace s.data.reverse).reverse :=
      List.reverse_append _ _
    _ = (pyRstrip s).data ++ (s.data.reverse.takeWhile isPySpace).reverse := rfl

theorem findMatch_rstrip (s : String) :
    findMatch s.data = findMatch (pyRstrip s).data := by
  conv_lhs => rw [data_decomp_rstrip s]
  exact findMatch_append_space (pyRstrip s).data
    (s.data.reverse.takeWhile isPySpace).reverse (mem_of_mem_rstrip_tail s)

/-- C9: `getCurrentKernel` runs `uname -r` and extracts the version
token; because the source discards the result of `rstrip ()` but no
match of the extraction pattern can overlap trailing whitespace, its
result is the same as extracting from the output with trailing
whitespace stripped: it succeeds with exactly the tokens the stripped
line yields, and fails exactly when extraction on the stripped line
fails. -/
theorem getCurrentKernel_rstrip :
    ∀ (env : SysEnv) (s : String), env.runProcess ["uname", "-r"] = .ran 0 s →
      (∀ v, getCurrentKernel env = .ok v ↔
        extractKernelVersionString (pyRstrip s) = .ok v) ∧
      ((∃ e, getCurrentKernel env = .error e) ↔
        (∃ e, extractKernelVersionString (pyRstrip s) = .error e)) := by
  intro env s h
  have hc : getCurrentKernel env = extractKernelVersionString s := by
    rw [getCurrentKernel, executeCommandWithOutput, h]
    simp
  have hfm := findMatch_rstrip s
  constructor
  · intro v
    rw [hc, extractKernelVersionString, extractKernelVersionString, hfm]
    cases hf : findMatch (pyRstrip s).data <;> simp
  · rw [hc, extractKernelVersionString, extractKernelVersionString, hfm]
    cases hf : findMatch (pyRstrip s).data <;> simp

theorem getCurrentKernel_rstrip_witness :
    getCurrentKernel envUname = .ok "4.8.6-300.fc25" :=
  ((getCurrentKernel_rstrip envUname "4.8.6-300.fc25\n" (by decide)).1
    "4.8.6-300.fc25").mpr (by decide)

/-- C10: when no installed kernel compares strictly greater than the
current one, `getNewKernels` returns the empty list without terminating
the run, `signNewKernels` then issues zero signing invocations, and the
whole pipeline of `main` terminates normally (exit status 0). -/
theorem main_run_nothing_to_sign :
    ∀ (env : SysEnv) (privateKeyPath publicKeyPath pm cur : String)
      (installed : List String),
      getPackageManager env = .ok pm →
      getCurrentKernel env = .ok cur →
      getInstalledKernels env pm = .ok installed →
      (∀ k ∈ installed, compareKernels k cur ≠ 1) →
      getNewKernels cur installed = [] ∧
      main_run env privateKeyPath publicKeyPath = ([], .ok ()) := by
  intro env privateKeyPath publicKeyPath pm cur installed h1 h2 h3 hnone
  have hnew : getNewKernels cur installed = [] := by
    rw [getNewKernels, getNewKernels_foldl cur installed [], List.nil_append]
    rw [List.filter_eq_nil_iff]
    intro k hk
    simp [hnone k hk]
  refine ⟨hnew, ?_⟩
  simp only [main_run, h1, h2, h3, hnew]
  rfl

theorem main_run_nothing_to_sign_witness :
    main_run envNothingNew "k.priv" "k.pub" = ([], .ok ()) :=
  (main_run_nothing_to_sign envNothingNew "k.priv" "k.pub" "rpm" "5.0.0"
    ["5.0.0"] (by decide) (by decide) (by decide) (by decide)).2
